import Mathlib

/-!
Shallow embedding of the science_news repository's cleaning, retry,
duplicate-detection and metadata-fetch routines, with theorems checking the
specification's claims against them.

Conventions of the embedding:
* Python exceptions are values of `PyErr`; fallible code returns
  `Except PyErr α`.
* Network I/O is abstracted by response oracles passed as arguments: an
  HTTP HEAD request for a URL is an `Except PyErr HeadResponse` (an
  exception during the request, or a response with a status code and
  headers), universally quantified in the theorems.
* Python strings are `String`, `None`-able strings are `Option String`,
  and Python truthiness of such values is `truthyOptStr`.
* A Python `set(...)` converted back to a list is modelled by
  `List.dedup` (a duplicate-free list with the same membership; CPython's
  set iteration order is unspecified, and no claim depends on the order).
-/

/-- Python exception values raised by the embedded code. -/
inductive PyErr where
  | exception (msg : String)
  | typeError (msg : String)
  | valueError (msg : String)
  | keyError (key : String)
  | indexError
  | attributeError (msg : String)
  deriving DecidableEq, Repr

/-- An HTTP HEAD response: its status code and its headers, given as a
lookup function (the code reads only the Location header). -/
structure HeadResponse where
  status : Int
  headers : String → Option String

/-- Python truthiness of an optional string: `None` and the empty string
are falsy. -/
def truthyOptStr : Option String → Bool
  | none => false
  | some s => !s.isEmpty

/-- Python `str.startswith(p)` when `p` may be `None`: a `None` argument
raises TypeError (the message CPython gives). -/
def startsWithMsg : String :=
  "startswith first arg must be str or a tuple of str, not NoneType"

/-- Left-to-right evaluation of a fallible generator expression over a
list, as Python's `set(f(u) for u in l)` does before collecting the
results: the first exception aborts the whole comprehension. -/
def mapExceptList (f : String → Except PyErr String) :
    List String → Except PyErr (List String)
  | [] => .ok []
  | u :: rest => do
    let c ← f u
    let cs ← mapExceptList f rest
    return c :: cs

namespace UrlCleaner

/-- URLCleaner.check_redirect (url_cleaner.py, lines 22-35): given the
outcome of `session.head(url, allow_redirects=False)`, returns
`(True, url, Location-or-url)` on a 3xx status and `(False, url, url)`
otherwise; any exception during the request is caught and also yields
`(False, url, url)`. -/
def check_redirect (url : String) (resp : Except PyErr HeadResponse) :
    Bool × String × String :=
  match resp with
  | .ok r =>
    if 300 ≤ r.status ∧ r.status < 400 then
      (true, url, (r.headers "Location").getD url)
    else
      (false, url, url)
  | .error _ => (false, url, url)

/-- URLCleaner.extract_doi_from_url (url_cleaner.py, lines 91-95):
`url[len(pre):]` when `url.startswith(pre)`, else `url` unchanged; a
`None` value for the keyword argument makes `startswith` raise TypeError. -/
def extract_doi_from_url (url : String) (pre : Option String) :
    Except PyErr String :=
  match pre with
  | none => .error (.typeError startsWithMsg)
  | some p => .ok (if p.isPrefixOf url then url.drop p.length else url)

/-- URLCleaner.clean_doi_urls (url_cleaner.py, lines 97-100):
`list(set(extract_doi_from_url(u, prefix) for u in doi_urls))`. The set
comprehension evaluates elements left to right, so the first TypeError
aborts the whole call. -/
def clean_doi_urls (doi_urls : List String) (pre : Option String) :
    Except PyErr (List String) := do
  let cleaned ← mapExceptList (fun u => extract_doi_from_url u pre) doi_urls
  return cleaned.dedup

end UrlCleaner

namespace RedirectingUrls

/-- check_redirect (redirecting_urls.py, lines 11-23), a module-level copy
of URLCleaner.check_redirect with the same body. -/
def check_redirect (url : String) (resp : Except PyErr HeadResponse) :
    Bool × String × String :=
  match resp with
  | .ok r =>
    if 300 ≤ r.status ∧ r.status < 400 then
      (true, url, (r.headers "Location").getD url)
    else
      (false, url, url)
  | .error _ => (false, url, url)

/-- get_doi_from_url (redirecting_urls.py, lines 79-84): identical to
URLCleaner.extract_doi_from_url except for a no-op `prefix = prefix`
assignment. -/
def get_doi_from_url (url : String) (pre : Option String) :
    Except PyErr String :=
  match pre with
  | none => .error (.typeError startsWithMsg)
  | some p => .ok (if p.isPrefixOf url then url.drop p.length else url)

/-- clean_doi_urls (redirecting_urls.py, lines 87-90): same body as
URLCleaner.clean_doi_urls, calling get_doi_from_url. -/
def clean_doi_urls (doi_urls : List String) (pre : Option String) :
    Except PyErr (List String) := do
  let cleaned ← mapExceptList (fun u => get_doi_from_url u pre) doi_urls
  return cleaned.dedup

end RedirectingUrls

namespace Combines

/-- The proxy dictionary combines.py builds for a truthy proxy entry:
`{"http": "http://<proxy>", "https": "http://<proxy>"}`. -/
structure ProxyDict where
  http : String
  https : String
  deriving DecidableEq, Repr

/-- The `proxy` keyword argument set for one attempt: the proxy dictionary
when the chosen entry is truthy, `None` otherwise (`if proxy:`). -/
def proxyKwarg (proxy : Option String) : Option ProxyDict :=
  match proxy with
  | some p => if !p.isEmpty then some ⟨"http://" ++ p, "http://" ++ p⟩ else none
  | none => none

/-- The message of the exception raised after the retry loop. -/
def allProxyFailedMsg : String := "All proxy attempts failed."

/-- The `for attempt in range(retries)` loop of
BaseScraper.run_with_proxy_async (combines.py, lines 38-59): `f attempt`
is the outcome of invoking the wrapped function on attempt number
`attempt`; the loop returns the first non-raising result and otherwise
falls through to `raise Exception("All proxy attempts failed.")`. The
second component counts how many times the wrapped function was invoked. -/
def runAttempts (f : Nat → Except PyErr α) : Nat → Nat → Except PyErr α × Nat
  | _, 0 => (.error (.exception allProxyFailedMsg), 0)
  | attempt, fuel + 1 =>
    match f attempt with
    | .ok v => (.ok v, 1)
    | .error _ =>
      let r := runAttempts f (attempt + 1) fuel
      (r.1, r.2 + 1)

/-- BaseScraper.run_with_proxy_async (combines.py, lines 28-59). `choice`
models `random.choice(self.proxies)` on attempt `i` (total, as choice on a
non-empty proxy pool always succeeds); the wrapped function receives the
`proxy` keyword argument built from the chosen entry. -/
def run_with_proxy_async (choice : Nat → Option String)
    (func : Option ProxyDict → Except PyErr α) (retries : Nat) :
    Except PyErr α × Nat :=
  runAttempts (fun i => func (proxyKwarg (choice i))) 0 retries

end Combines

/-- The default prefix argument of the DOI-cleaning routines. -/
def doiOrgUrl : String := "https://doi.org/"

/-- Modelled from the claim's words (C4): strip(u) removes the leading
"https://doi.org/" when u starts with it and returns u unchanged
otherwise. Stated separately from the source functions so that C4 compares
the code against the claim's description. -/
def stripDoiOrg (u : String) : String :=
  if doiOrgUrl.isPrefixOf u then u.drop doiOrgUrl.length else u

/-- One step of a `defaultdict(list)` counter: `counter[v].append(i)`.
The association list keeps keys in first-insertion order, as a Python
dict does. -/
def appendEntry {ι V : Type} [DecidableEq V] (acc : List (V × List ι)) (v : V) (i : ι) :
    List (V × List ι) :=
  match acc with
  | [] => [(v, [i])]
  | (k, l) :: rest =>
    if k = v then (k, l ++ [i]) :: rest else (k, l) :: appendEntry rest v i

/-- Lookup in the association-list counter (Python dict indexing). -/
def lookupEntry {ι V : Type} [DecidableEq V] (acc : List (V × List ι)) (v : V) :
    Option (List ι) :=
  match acc with
  | [] => none
  | (k, l) :: rest => if k = v then some l else lookupEntry rest v

/-- Folding a stream of (item id, collected value) events into the
counter, as the scripts' main loops do. -/
def counterFoldFrom {ι V : Type} [DecidableEq V] (acc : List (V × List ι)) :
    List (ι × V) → List (V × List ι)
  | [] => acc
  | e :: rest => counterFoldFrom (appendEntry acc e.2 e.1) rest

/-- The counter built from the whole event stream. -/
def counterOf {ι V : Type} [DecidableEq V] (events : List (ι × V)) : List (V × List ι) :=
  counterFoldFrom [] events

/-- A value is reported as a duplicate when its id list in the counter has
more than one element (`if len(ids) > 1` / `if len(articles) > 1`). -/
def isDupIn {ι V : Type} [DecidableEq V] (counter : List (V × List ι)) (v : V) : Prop :=
  ∃ l, lookupEntry counter v = some l ∧ 1 < l.length

/-- The reported total for one key:
`sum(len(ids) for ids in duplicates.values())`. -/
def totalDuplicates {ι V : Type} (counter : List (V × List ι)) : Nat :=
  (((counter.filter (fun e => decide (1 < e.2.length))).map
    (fun e => e.2.length))).sum

/-- Character-list prefix test (used for Python's substring operator). -/
def charsPrefixEq : List Char → List Char → Bool
  | [], _ => true
  | _ :: _, [] => false
  | c :: cs, d :: ds => c == d && charsPrefixEq cs ds

/-- Character-list substring test. -/
def charsContains (pat : List Char) : List Char → Bool
  | [] => charsPrefixEq pat []
  | d :: ds => charsPrefixEq pat (d :: ds) || charsContains pat ds

/-- Python's `pat in s` substring test on strings. -/
def strInStr (pat s : String) : Bool := charsContains pat.toList s.toList

/-- One scan step list for Python's `s.split(sep)` (no limit) over
character lists; `fuel` bounds the recursion (each step consumes at least
one character, so `length + 1` fuel suffices). The separators used are
never empty. -/
def splitListAux (sep : List Char) : Nat → List Char → List (List Char)
  | 0, cs => [cs]
  | _ + 1, [] => [[]]
  | fuel + 1, c :: rest =>
    if charsPrefixEq sep (c :: rest) then
      [] :: splitListAux sep fuel ((c :: rest).drop sep.length)
    else
      match splitListAux sep fuel rest with
      | [] => [[c]]
      | seg :: segs => (c :: seg) :: segs

/-- Python `s.split(sep)` for a non-empty separator: always returns at
least one segment. -/
def pySplit (s sep : String) : List String :=
  (splitListAux sep.toList (s.toList.length + 1) s.toList).map
    (fun cs => String.mk cs)

namespace JsonAnalysisTwo

/-- One entry of an article's `paperlinks` list in
json_analysis_two.py (`link_info.get("paperlink")` / `.get("doi")`). -/
structure LinkInfo where
  paperlink : Option String
  doi : Option String

/-- An article record of urldictcleandoistwo.json as json_analysis_two.py
reads it: its `url`, its `index` (always present: the script indexes
`article["index"]` unconditionally) and its `paperlinks`. -/
structure ArticleRec where
  url : Option String
  index : Int
  paperlinks : List LinkInfo

/-- The DOI occurrences the script collects from one article, in order:
one per paperlink whose doi passes `if doi and doi != "N/A"`. -/
def collectedDois (a : ArticleRec) : List String :=
  a.paperlinks.filterMap (fun l =>
    match l.doi with
    | some d => if !d.isEmpty && (d != "N/A") then some d else none
    | none => none)

/-- The paperlink URL occurrences collected from one article
(`if paperlink:`). -/
def collectedPaperlinks (a : ArticleRec) : List String :=
  a.paperlinks.filterMap (fun l =>
    match l.paperlink with
    | some p => if !p.isEmpty then some p else none
    | none => none)

/-- The ScienceAlert link occurrences collected from one article
(`if sciencealert_link and "sciencealert.com" in sciencealert_link`). -/
def collectedSciencealert (a : ArticleRec) : List String :=
  match a.url with
  | some u => if !u.isEmpty && strInStr "sciencealert.com" u then [u] else []
  | none => []

/-- The (article index, value) event stream the script's loop feeds into
one of its counters, in iteration order. -/
def eventsBy (arts : List ArticleRec) (collect : ArticleRec → List String) :
    List (Int × String) :=
  arts.flatMap (fun a => (collect a).map (fun v => (a.index, v)))

/-- doi_counter of json_analysis_two.py (lines 9-32). -/
def doi_counter (arts : List ArticleRec) : List (String × List Int) :=
  counterOf (eventsBy arts collectedDois)

/-- url_counter of json_analysis_two.py. -/
def url_counter (arts : List ArticleRec) : List (String × List Int) :=
  counterOf (eventsBy arts collectedPaperlinks)

/-- sciencealert_counter of json_analysis_two.py. -/
def sciencealert_counter (arts : List ArticleRec) : List (String × List Int) :=
  counterOf (eventsBy arts collectedSciencealert)

end JsonAnalysisTwo

namespace JsonAnalysis

/-- The counter analyze_json_duplicates (json_analysis.py, lines 39-45)
builds for one entry of key_paths: for each (item id, item) it appends the
id once per collected value (`extract_values_from_path` composed with the
`if value:` truthiness filter, abstracted here as `collect`). -/
def counterFor {κ I V : Type} [DecidableEq V] (items : List (κ × I))
    (collect : I → List V) : List (V × List κ) :=
  counterOf (items.flatMap (fun p => (collect p.2).map (fun v => (p.1, v))))

end JsonAnalysis

namespace DataModels

/-- The PaperLink dataclass of data_models.py. -/
structure PaperLink where
  paperlink : Option String
  doi : Option String

/-- The Article dataclass of data_models.py (the fields check_all_urls and
clean_data touch or must leave alone). -/
structure Article where
  title : Option String
  url : Option String
  author : Option String
  doi_urls : List String
  non_doi_urls : List String
  index : Option String
  paperlinks : List PaperLink
  count : Option Int
  dois : List String

end DataModels

namespace UrlCleaner

/-- Where one gathered task writes its final URL back: the article's `url`
field, or `paperlinks[i].paperlink`. -/
inductive UpdKey where
  | urlField
  | plField (i : Nat)

/-- The task list URLCleaner.check_all_urls builds before gathering
(lines 46-61): for each article, one task for a truthy `article.url`,
then one per truthy `paperlinks[i].paperlink`, each remembering
`(article_id, key, checked url)`. The tasks capture the URLs as they are
before any update, since all tasks are created before `asyncio.gather`. -/
def urlTasks (articles : List DataModels.Article) :
    List (Nat × UpdKey × String) :=
  articles.enum.flatMap (fun p =>
    (match p.2.url with
     | some u => if !u.isEmpty then [(p.1, UpdKey.urlField, u)] else []
     | none => []) ++
    (p.2.paperlinks.enum.filterMap (fun q =>
      match q.2.paperlink with
      | some u => if !u.isEmpty then some (p.1, UpdKey.plField q.1, u) else none
      | none => none)))

/-- Writing one gathered result back (lines 67-87): the article's url or
the indicated paperlink's paperlink is overwritten with the final URL. -/
def applyUpdate (arts : List DataModels.Article) (article_id : Nat)
    (key : UpdKey) (final : String) : List DataModels.Article :=
  match arts.get? article_id with
  | none => arts
  | some a =>
    match key with
    | UpdKey.urlField => arts.set article_id { a with url := some final }
    | UpdKey.plField i =>
      match a.paperlinks.get? i with
      | none => arts
      | some p =>
        arts.set article_id
          { a with paperlinks := a.paperlinks.set i { p with paperlink := some final } }

/-- URLCleaner.check_all_urls (url_cleaner.py, lines 37-89): collects the
tasks, checks each URL through `check_redirect` (the HEAD outcome for a
URL given by the oracle `resp`), and then walks the results in task
order, filling the two counters and writing the final URLs back into the
articles. Returns (redirect_counter, non_redirect_counter, articles). -/
def check_all_urls (resp : String → Except PyErr HeadResponse)
    (articles : List DataModels.Article) :
    List (String × List (Nat × String)) × List (String × List (Nat × String)) ×
      List DataModels.Article :=
  (urlTasks articles).foldl
    (fun st t =>
      let (rc, nrc, arts) := st
      let r := check_redirect t.2.2 (resp t.2.2)
      let arts2 := applyUpdate arts t.1 t.2.1 r.2.2
      if r.1 then (appendEntry rc r.2.2 (t.1, r.2.1), nrc, arts2)
      else (rc, appendEntry nrc r.2.1 (t.1, r.2.1), arts2))
    ([], [], articles)

end UrlCleaner

namespace RedirectingUrls

/-- The DOI phase of clean_file for one article (redirecting_urls.py,
lines 115-119): `article['dois'] = clean_doi_urls(article['doi_urls'])`
then `article['doi_urls'] = clean_doi_urls(article['doi_urls'],
prefix=None)`, both from the original doi_urls value. The
`'doi_urls' in article` guard is always satisfied in this embedding, as
the Article record always carries the field. -/
def clean_article_dois (a : DataModels.Article) :
    Except PyErr DataModels.Article := do
  let ds ← clean_doi_urls a.doi_urls (some doiOrgUrl)
  let du ← clean_doi_urls a.doi_urls none
  return { a with dois := ds, doi_urls := du }

/-- The `for article in updated_data` loop of clean_file: articles are
processed left to right and the first exception aborts the loop. -/
def clean_articles_dois :
    List DataModels.Article → Except PyErr (List DataModels.Article)
  | [] => .ok []
  | a :: rest => do
    let a2 ← clean_article_dois a
    let rest2 ← clean_articles_dois rest
    return a2 :: rest2

/-- clean_file (redirecting_urls.py, lines 98-139) after the input file is
loaded: the try block checks redirects (check_all_urls, the shared
routine of C2), rewrites each article's dois and doi_urls, and only then
writes the result (`some updated`); any exception in the block is caught
by the `except` clause and the function returns with nothing written
(`none`). -/
def clean_file (resp : String → Except PyErr HeadResponse)
    (data : List DataModels.Article) : Option (List DataModels.Article) :=
  match clean_articles_dois (UrlCleaner.check_all_urls resp data).2.2 with
  | .ok updated => some updated
  | .error _ => none

end RedirectingUrls

/-- The fields of an article that check_all_urls must not touch agree, the
articles' paperlink lists have the same length and order, and each
paperlink's doi agrees. -/
def frameAgree (a b : DataModels.Article) : Prop :=
  a.title = b.title ∧ a.author = b.author ∧ a.doi_urls = b.doi_urls ∧
  a.non_doi_urls = b.non_doi_urls ∧ a.index = b.index ∧ a.count = b.count ∧
  a.dois = b.dois ∧
  List.Forall₂ (fun p q => p.doi = q.doi) a.paperlinks b.paperlinks

/-- A JSON value, as open_alex_scraper.py receives one from
`response.json()`. -/
inductive JValue where
  | null
  | jb (v : Bool)
  | jn (v : Int)
  | js (v : String)
  | jarr (xs : List JValue)
  | jobj (fields : List (String × JValue))

/-- Python truthiness of a JSON value: None, False, 0, "", [] and an empty
dict are falsy. -/
def pyTruthy : JValue → Bool
  | .null => false
  | .jb b => b
  | .jn n => n != 0
  | .js s => !s.isEmpty
  | .jarr xs => !xs.isEmpty
  | .jobj fs => !fs.isEmpty

/-- Lookup of a key in a JSON object's field list (Python dict indexing;
also used for the scraper's DOI-keyed metadata cache). -/
def lookupField : List (String × JValue) → String → Option JValue
  | [], _ => none
  | (k, v) :: rest, key => if k = key then some v else lookupField rest key

/-- Python `d.get(key, dflt)`: AttributeError when the receiver is not a
dict. -/
def pyDictGet (v : JValue) (key : String) (dflt : JValue) :
    Except PyErr JValue :=
  match v with
  | .jobj fields => .ok ((lookupField fields key).getD dflt)
  | _ => .error (.attributeError ("object has no attribute get: " ++ key))

/-- Python `d[key]`: KeyError when the key is missing, TypeError when the
receiver is not a dict. -/
def pyGetItem (v : JValue) (key : String) : Except PyErr JValue :=
  match v with
  | .jobj fields =>
    match lookupField fields key with
    | some x => .ok x
    | none => .error (.keyError key)
  | _ => .error (.typeError "object is not subscriptable")

/-- Python `l[i]` on a JSON list: IndexError out of range, TypeError when
the receiver is not a list. -/
def pyIndexList (v : JValue) (i : Nat) : Except PyErr JValue :=
  match v with
  | .jarr xs =>
    match xs.get? i with
    | some x => .ok x
    | none => .error .indexError
  | _ => .error (.typeError "object is not subscriptable")

/-- Python `str()` of a JSON value as interpolated into the pages
f-string. Scalars render exactly; the rendering of nested aggregates is
abbreviated (the biblio page fields the code formats are scalars, and no
claim depends on the aggregate rendering). -/
def jstr : JValue → String
  | .null => "None"
  | .jb true => "True"
  | .jb false => "False"
  | .jn n => toString n
  | .js s => s
  | .jarr _ => "[...]"
  | .jobj _ => "\x7b...\x7d"

/-- Left-to-right evaluation of a fallible comprehension over JSON
values. -/
def mapExceptJ (f : JValue → Except PyErr JValue) :
    List JValue → Except PyErr (List JValue)
  | [] => .ok []
  | x :: rest => do
    let y ← f x
    let ys ← mapExceptJ f rest
    return y :: ys

/-- The element conversion done by `", ".join(...)`: every element must
already be a str, else TypeError. -/
def joinStrs : List JValue → Except PyErr (List String)
  | [] => .ok []
  | x :: rest =>
    match x with
    | .js s => do
      let ss ← joinStrs rest
      return s :: ss
    | _ => .error (.typeError "sequence item: expected str instance")

/-- Python `", ".join(xs)`. -/
def pyJoin (sep : String) (xs : List JValue) : Except PyErr String := do
  let ss ← joinStrs xs
  return String.intercalate sep ss

namespace OpenAlex

/-- A character CPython's urlsplit accepts inside a scheme: ASCII letters
and digits and `+`, `-`, `.`. -/
def isSchemeChar (c : Char) : Bool :=
  c.isAlpha || c.isDigit || c = '+' || c = '-' || c = '.'

/-- Whether a candidate scheme (the text before the first colon) is valid:
non-empty, first character an ASCII letter, all characters scheme
characters. -/
def schemeOk (xs : List Char) : Bool :=
  match xs with
  | [] => false
  | c :: _ => c.isAlpha && xs.all isSchemeChar

/-- CPython urlsplit's scheme step: split off `scheme:` (lower-cased)
when the text before the first colon is a valid scheme, else leave the
URL untouched with an empty scheme. -/
def splitScheme (cs : List Char) : List Char × List Char :=
  match List.findIdx? (fun c => c == ':') cs with
  | some i =>
    if 0 < i ∧ schemeOk (cs.take i) then
      ((cs.take i).map Char.toLower, cs.drop (i + 1))
    else ([], cs)
  | none => ([], cs)

/-- CPython urlsplit's netloc step: after `//` the netloc runs to the
first `/`, `?` or `#`; a netloc with an unbalanced square bracket raises
ValueError("Invalid IPv6 URL"). (The bracketed-host validation newer
CPython adds for balanced brackets only widens the error cases and is not
exercised by any claim.) -/
def splitNetloc (rest : List Char) : Except PyErr (List Char × List Char) :=
  if charsPrefixEq ['/', '/'] rest then
    let tail := rest.drop 2
    let netloc := tail.takeWhile (fun c => c != '/' && c != '?' && c != '#')
    if (netloc.contains '[') != (netloc.contains ']') then
      .error (.valueError "Invalid IPv6 URL")
    else
      .ok (netloc, tail.drop netloc.length)
  else
    .ok ([], rest)

/-- CPython urlparse's params step (_splitparams), reached when the path
contains a `;`: with a `/` present, only a `;` in the segment after the
last `/` splits off params; otherwise the first `;` does. -/
def splitParamsList (path : List Char) : List Char × List Char :=
  if path.contains ';' then
    if path.contains '/' then
      let lastSeg := (path.reverse.takeWhile (fun c => c != '/')).reverse
      let pre := path.take (path.length - lastSeg.length)
      if lastSeg.contains ';' then
        let before := lastSeg.takeWhile (fun c => c != ';')
        (pre ++ before, lastSeg.drop (before.length + 1))
      else (path, [])
    else
      let before := path.takeWhile (fun c => c != ';')
      (before, path.drop (before.length + 1))
  else (path, [])

/-- The (scheme, netloc, path, params) of CPython's
`urlparse(url)` as clean_url consumes it (query and fragment are parsed
off and then discarded by the caller, which rebuilds the URL with empty
query and fragment). The control-character stripping newer CPython
performs first is not modelled; the pipeline's URL strings contain none. -/
def urlparse4 (s : String) : Except PyErr (String × String × String × String) :=
  let sp := splitScheme s.toList
  match splitNetloc sp.2 with
  | .error e => .error e
  | .ok nl =>
    let rest3 := nl.2.takeWhile (fun c => c != '#')
    let path0 := rest3.takeWhile (fun c => c != '?')
    let pp := splitParamsList path0
    .ok (String.mk sp.1, String.mk nl.1, String.mk pp.1, String.mk pp.2)

/-- CPython's `urlunparse((scheme, netloc, path, params, '', ''))` as
clean_url calls it: reattach params with `;`, then `//netloc` (inserting
a leading `/` before a relative path), then `scheme:`; the empty query
and fragment are dropped. -/
def urlunparse2 (scheme netloc path params : String) : String :=
  let url1 := if !params.isEmpty then path ++ ";" ++ params else path
  let url2 :=
    if !netloc.isEmpty || (!url1.isEmpty && charsPrefixEq ['/', '/'] url1.toList) then
      "//" ++ netloc ++
        (if !url1.isEmpty && !(charsPrefixEq ['/'] url1.toList) then "/" ++ url1
         else url1)
    else url1
  if !scheme.isEmpty then scheme ++ ":" ++ url2 else url2

/-- The psycnet special case's prefix in clean_url. -/
def psycnetPre : String := "https://psycnet.apa.org/doiLanding?doi="

/-- OpenAlexScraper.clean_url (open_alex_scraper.py, lines 103-121):
return the text after the last `=` for psycnet doiLanding URLs; otherwise
cut at `/full` and `/abstract`, then urlparse and rebuild without query
and fragment. The urlparse call can raise ValueError for a malformed
netloc. -/
def clean_url (url : String) : Except PyErr String :=
  if charsPrefixEq psycnetPre.toList url.toList then
    .ok ((pySplit url "=").getLastD "")
  else
    let u1 := (pySplit url "/full").headD ""
    let u2 := (pySplit u1 "/abstract").headD ""
    match urlparse4 u2 with
    | .error e => .error e
    | .ok q => .ok (urlunparse2 q.1 q.2.1 q.2.2.1 q.2.2.2)

/-- OpenAlexScraper.follow_redirects (open_alex_scraper.py, lines
92-101): GET the url following redirects and return the final URL; any
exception is caught and the original url returned. `resp` is the
outcome of that GET, projected to `str(response.url)`. -/
def follow_redirects (url : String) (resp : Except PyErr String) : String :=
  match resp with
  | .ok finalUrl => finalUrl
  | .error _ => url

/-- The api_url construction of get_paper_metadata before its try block
(open_alex_scraper.py, lines 45-51): the doi branch only reshapes the
local doi and cannot raise; the `elif url:` branch runs follow_redirects
and then clean_url, whose urlparse ValueError propagates uncaught. Both
arguments falsy never reaches this point (the guard raised already). -/
def preRequest (doi url : Option String) (fr : Except PyErr String) :
    Except PyErr Unit :=
  if truthyOptStr doi then .ok ()
  else
    match url with
    | some u =>
      if !u.isEmpty then (clean_url (follow_redirects u fr)).map (fun _ => ())
      else .ok ()
    | none => .ok ()

/-- The per-author extraction of the authors list comprehension:
`author["author"]["display_name"]`. -/
def authorName (a : JValue) : Except PyErr JValue := do
  let au ← pyGetItem a "author"
  pyGetItem au "display_name"

/-- The first_author entry:
`metadata["authorships"][0]["author"]["display_name"]` when
`metadata.get("authorships")` is truthy, else "No Author". -/
def firstAuthorOf (metadata auths : JValue) : Except PyErr JValue :=
  if pyTruthy auths then do
    let lst ← pyGetItem metadata "authorships"
    let a0 ← pyIndexList lst 0
    let au ← pyGetItem a0 "author"
    pyGetItem au "display_name"
  else
    Except.ok (JValue.js "No Author")

/-- The authors entry: the join of the per-author display names over
`metadata.get("authorships", [])`; iterating a non-list raises. -/
def authorsJoined (ausDflt : JValue) : Except PyErr JValue :=
  match ausDflt with
  | .jarr l => do
    let names ← mapExceptJ authorName l
    let joined ← pyJoin ", " names
    return JValue.js joined
  | _ => .error (.typeError "object is not iterable")

/-- The dictionary literal OpenAlexScraper.get_paper_metadata returns on
the 200 path (open_alex_scraper.py, lines 78-90), with `doiVar` the local
doi after the prefix strip; values are computed in the literal's
evaluation order, and `metadata['biblio']` is fetched once where the
pages entry first evaluates it (the repeats read the same value). -/
def buildSummary (metadata doiVar : JValue) : Except PyErr JValue := do
  let title ← pyDictGet metadata "display_name" (.js "No Title Available")
  let auths ← pyDictGet metadata "authorships" .null
  let firstAuthor ← firstAuthorOf metadata auths
  let ausDflt ← pyDictGet metadata "authorships" (.jarr [])
  let authorsJ ← authorsJoined ausDflt
  let year ← pyDictGet metadata "publication_year" (.js "Unknown Year")
  let doiUrl ← pyDictGet metadata "doi" (.js "No DOI available")
  let hv ← pyDictGet metadata "host_venue" (.jobj [])
  let journal ← pyDictGet hv "display_name" (.js "Unknown Institution")
  let biblio ← pyGetItem metadata "biblio"
  let fp ← pyDictGet biblio "first_page" (.js "")
  let lp ← pyDictGet biblio "last_page" (.js "")
  let vol ← pyDictGet biblio "volume" (.js "")
  let num ← pyDictGet biblio "issue" (.js "")
  return .jobj [("title", title), ("first_author", firstAuthor),
    ("authors", authorsJ), ("year", year), ("doi", doiVar),
    ("doi_url", doiUrl), ("journal_or_institution", journal),
    ("pages", .js (jstr fp ++ "-" ++ jstr lp)), ("volume", vol),
    ("number", num)]

/-- Python dict assignment `cache[key] = v`: overwrite in place or append
a new key in insertion order. -/
def updateCache (cache : List (String × JValue)) (key : String) (v : JValue) :
    List (String × JValue) :=
  match cache with
  | [] => [(key, v)]
  | (k, w) :: rest =>
    if k = key then (k, v) :: rest else (k, w) :: updateCache rest key v

/-- The cache test `if doi and doi in self.metadata_cache:` followed by
the lookup that a hit returns. -/
def cacheHit (cache : List (String × JValue)) (doi : Option String) :
    Option JValue :=
  match doi with
  | some d => if !d.isEmpty then lookupField cache d else none
  | none => none

/-- The message of the ValueError raised when both arguments are absent. -/
def valueErrorMsg : String := "At least one of 'doi' or 'url' must be provided."

/-- Python `str(x)` of an optional string. -/
def pyStrOfOptStr : Option String → String
  | some s => s
  | none => "None"

/-- The strip `doi = doi[len("https://doi.org/"):]` applied when the
metadata's doi field is truthy; slicing a truthy non-string raises
TypeError. -/
def stripMetaDoi (doiField : JValue) : Except PyErr JValue :=
  if pyTruthy doiField then
    match doiField with
    | .js s => Except.ok (JValue.js (s.drop doiOrgUrl.length))
    | _ => Except.error (.typeError "object is not subscriptable")
  else Except.ok doiField

/-- The post-request processing of get_paper_metadata (open_alex_scraper.py,
lines 66-90), outside the try block: extract and strip the metadata's own
doi (slicing a truthy non-string raises TypeError), bind the unused
`title` local, store the raw metadata in the cache under the stripped doi
when that is truthy, and return the summary dictionary. -/
def processMetadata (cache : List (String × JValue)) (metadata : JValue) :
    Except PyErr (JValue × List (String × JValue)) := do
  let doiField ← pyDictGet metadata "doi" .null
  let doiVar ← stripMetaDoi doiField
  let _title ← pyDictGet metadata "display_name" (.js "No Title Available")
  -- `if doi: self.metadata_cache[doi] = metadata` — a truthy doi here is
  -- always a string (a non-string truthy one raised just above)
  let cache2 :=
    match doiVar with
    | .js s => if !s.isEmpty then updateCache cache s metadata else cache
    | _ => cache
  let summary ← buildSummary metadata doiVar
  return (summary, cache2)

/-- OpenAlexScraper.get_paper_metadata (open_alex_scraper.py, lines
34-90). `cache` is self.metadata_cache; `fr` is the outcome of the GET
follow_redirects performs on the url branch; `resp` is the outcome of
`session.get(api_url)` (either an exception, or a status code paired with
the outcome of `response.json()`); the result pairs the returned value
with the cache as left behind (save_metadata_cache persists exactly that
cache). The api_url string itself only shapes the request the `resp`
oracle answers, but the url branch's follow_redirects + clean_url step is
run for its exceptions (preRequest); request_count is not observable in
any claim and is omitted. -/
def get_paper_metadata (cache : List (String × JValue)) (doi url : Option String)
    (fr : Except PyErr String)
    (resp : Except PyErr (Int × Except PyErr JValue)) :
    Except PyErr (JValue × List (String × JValue)) :=
  if !(truthyOptStr doi || truthyOptStr url) then
    .error (.valueError valueErrorMsg)
  else
    match cacheHit cache doi with
    | some v => .ok (v, cache)
    | none =>
      match preRequest doi url fr with
      | .error e => .error e
      | .ok _ =>
      -- the `if doi:` branch replaces "https://doi.org/" in the local doi
      -- before building api_url; that local feeds the error messages below
      let doi2 := match doi with
        | some d => if !d.isEmpty then some (d.replace doiOrgUrl "") else some d
        | none => none
      let who := if truthyOptStr doi2 then pyStrOfOptStr doi2 else pyStrOfOptStr url
      match resp with
      | .error _ =>
        .ok (.jobj [("error", .js ("Could not fetch metadata for " ++ who))], cache)
      | .ok (status, body) =>
        if status = 404 then
          .ok (.jobj [("error", .js ("Could not find metadata for " ++ who))], cache)
        else if status ≠ 200 then
          .ok (.jobj [("error", .js ("Error: Received status code " ++
            toString status ++ " for " ++ who))], cache)
        else
          match body with
          | .error _ =>
            .ok (.jobj [("error", .js ("Could not fetch metadata for " ++ who))], cache)
          | .ok metadata => processMetadata cache metadata

end OpenAlex

/-- A concrete OpenAlex metadata JSON used for the cache analysis: a 200
response body with a doi field and an (empty) biblio dict. -/
def sampleMeta : JValue :=
  .jobj [("doi", .js "https://doi.org/10.1/x"), ("biblio", .jobj [])]

theorem mapExceptList_extract_ok (l : List String) (p : String) :
    mapExceptList (fun u => UrlCleaner.extract_doi_from_url u (some p)) l =
      Except.ok (l.map (fun u => if p.isPrefixOf u then u.drop p.length else u)) := by
  induction l with
  | nil => rfl
  | cons x xs ih =>
    rw [mapExceptList, ih]
    rfl

/-- C1: the redirect-check routine returns (True, url, location) exactly on
a 3xx HEAD status, with location the Location header (defaulting to the
original url), and returns (False, url, url) on any other status and on
any exception, which it never propagates (it is a total function of the
request's outcome). -/
theorem check_redirect_spec (url : String) (resp : Except PyErr HeadResponse) :
    (∀ r, resp = .ok r →
      ((300 ≤ r.status ∧ r.status < 400) →
        UrlCleaner.check_redirect url resp =
          (true, url, (r.headers "Location").getD url)) ∧
      (¬ (300 ≤ r.status ∧ r.status < 400) →
        UrlCleaner.check_redirect url resp = (false, url, url))) ∧
    (∀ e, resp = .error e →
      UrlCleaner.check_redirect url resp = (false, url, url)) := by
  constructor
  · rintro r rfl
    constructor
    · intro h
      simp [UrlCleaner.check_redirect, h]
    · intro h
      simp [UrlCleaner.check_redirect, h]
  · rintro e rfl
    rfl

/-- C2: the cleaning routines duplicated across url_cleaner.py and
redirecting_urls.py are extensionally equal: check_redirect agrees with
its module-level copy on every input, and extract_doi_from_url and
clean_doi_urls agree with get_doi_from_url and the module-level
clean_doi_urls for every URL, URL list and prefix. -/
theorem duplicated_cleaners_agree :
    (∀ url resp, UrlCleaner.check_redirect url resp =
      RedirectingUrls.check_redirect url resp) ∧
    (∀ url pre, UrlCleaner.extract_doi_from_url url pre =
      RedirectingUrls.get_doi_from_url url pre) ∧
    (∀ doi_urls pre, UrlCleaner.clean_doi_urls doi_urls pre =
      RedirectingUrls.clean_doi_urls doi_urls pre) :=
  ⟨fun _ _ => rfl, fun _ _ => rfl, fun _ _ => rfl⟩

/-- C4: with the default prefix "https://doi.org/", clean_doi_urls returns
(never raises) a duplicate-free list whose elements are exactly the
prefix-stripped input URLs. -/
theorem clean_doi_urls_default_spec (doi_urls : List String) :
    ∃ r, UrlCleaner.clean_doi_urls doi_urls (some doiOrgUrl) = .ok r ∧
      r.Nodup ∧ (∀ a, a ∈ r ↔ ∃ u ∈ doi_urls, stripDoiOrg u = a) := by
  refine ⟨(doi_urls.map stripDoiOrg).dedup, ?_, List.nodup_dedup _, ?_⟩
  · rw [UrlCleaner.clean_doi_urls, mapExceptList_extract_ok]
    rfl
  · intro a
    simp [List.mem_dedup, List.mem_map]

theorem runAttempts_spec {α : Type} (f : Nat → Except PyErr α) :
    ∀ fuel a,
      (Combines.runAttempts f a fuel).2 ≤ fuel ∧
      ((Combines.runAttempts f a fuel).1 =
          .error (.exception Combines.allProxyFailedMsg) ↔
        ∀ i < fuel, ∃ e, f (a + i) = .error e) ∧
      (∀ v, (Combines.runAttempts f a fuel).1 = .ok v ↔
        ∃ i < fuel, f (a + i) = .ok v ∧ ∀ j < i, ∃ e, f (a + j) = .error e) := by
  intro fuel
  induction fuel with
  | zero =>
    intro a
    refine ⟨le_refl _, ?_, ?_⟩
    · simp [Combines.runAttempts]
    · intro v
      simp [Combines.runAttempts]
  | succ n ih =>
    intro a
    rcases hf : f a with e0 | v0
    · obtain ⟨ihc, ihe, iho⟩ := ih (a + 1)
      refine ⟨?_, ?_, ?_⟩
      · simp only [Combines.runAttempts, hf]
        omega
      · simp only [Combines.runAttempts, hf]
        rw [ihe]
        constructor
        · intro h i hi
          match i with
          | 0 => exact ⟨e0, by simpa using hf⟩
          | j + 1 =>
            have := h j (by omega)
            simpa [Nat.add_assoc, Nat.add_comm 1 j] using this
        · intro h i hi
          have := h (i + 1) (by omega)
          simpa [Nat.add_assoc, Nat.add_comm 1 i] using this
      · intro v
        simp only [Combines.runAttempts, hf]
        rw [iho v]
        constructor
        · rintro ⟨i, hi, hok, hprev⟩
          refine ⟨i + 1, by omega, ?_, ?_⟩
          · simpa [Nat.add_assoc, Nat.add_comm 1 i] using hok
          · intro j hj
            match j with
            | 0 => exact ⟨e0, by simpa using hf⟩
            | k + 1 =>
              have := hprev k (by omega)
              simpa [Nat.add_assoc, Nat.add_comm 1 k] using this
        · rintro ⟨i, hi, hok, hprev⟩
          match i with
          | 0 =>
            rw [Nat.add_zero] at hok
            rw [hf] at hok
            exact absurd hok (by simp)
          | k + 1 =>
            refine ⟨k, by omega, ?_, ?_⟩
            · simpa [Nat.add_assoc, Nat.add_comm 1 k] using hok
            · intro j hj
              have := hprev (j + 1) (by omega)
              simpa [Nat.add_assoc, Nat.add_comm 1 j] using this
    · refine ⟨?_, ?_, ?_⟩
      · simp only [Combines.runAttempts, hf]
        omega
      · simp only [Combines.runAttempts, hf]
        constructor
        · intro h
          exact absurd h (by simp)
        · intro h
          obtain ⟨e, he⟩ := h 0 (by omega)
          rw [Nat.add_zero, hf] at he
          exact absurd he (by simp)
      · intro v
        simp only [Combines.runAttempts, hf]
        constructor
        · intro h
          refine ⟨0, by omega, ?_, ?_⟩
          · rw [Nat.add_zero, hf]
            simpa using h
          · intro j hj
            omega
        · rintro ⟨i, hi, hok, hprev⟩
          match i with
          | 0 =>
            rw [Nat.add_zero, hf] at hok
            simpa using hok
          | k + 1 =>
            obtain ⟨e, he⟩ := hprev 0 (by omega)
            rw [Nat.add_zero, hf] at he
            exact absurd he (by simp)

/-- C3: run_with_proxy_async makes at most `retries` invocations of the
wrapped function, each invoked with the proxy keyword built from the
entry chosen for that attempt (proxy=None when the chosen entry is None);
it returns the value of the first attempt that does not raise, and it
raises Exception("All proxy attempts failed.") precisely when all
`retries` attempts raise. -/
theorem run_with_proxy_async_spec {α : Type} (choice : Nat → Option String)
    (func : Option Combines.ProxyDict → Except PyErr α) (retries : Nat) :
    (Combines.run_with_proxy_async choice func retries).2 ≤ retries ∧
    ((Combines.run_with_proxy_async choice func retries).1 =
        .error (.exception Combines.allProxyFailedMsg) ↔
      ∀ i < retries, ∃ e, func (Combines.proxyKwarg (choice i)) = .error e) ∧
    (∀ v, (Combines.run_with_proxy_async choice func retries).1 = .ok v ↔
      ∃ i < retries, func (Combines.proxyKwarg (choice i)) = .ok v ∧
        ∀ j < i, ∃ e, func (Combines.proxyKwarg (choice j)) = .error e) := by
  have h := runAttempts_spec (fun i => func (Combines.proxyKwarg (choice i))) retries 0
  simpa [Combines.run_with_proxy_async] using h

theorem lookupEntry_appendEntry {ι V : Type} [DecidableEq V]
    (acc : List (V × List ι)) (v w : V) (i : ι) :
    lookupEntry (appendEntry acc v i) w =
      if w = v then some ((lookupEntry acc v).getD [] ++ [i])
      else lookupEntry acc w := by
  induction acc with
  | nil =>
    by_cases h : w = v
    · subst h
      simp [appendEntry, lookupEntry]
    · have h2 : ¬ v = w := fun hc => h hc.symm
      simp [appendEntry, lookupEntry, h, h2]
  | cons hd tl ih =>
    obtain ⟨k, l⟩ := hd
    by_cases hkv : k = v
    · subst hkv
      by_cases hkw : k = w
      · subst hkw
        simp [appendEntry, lookupEntry]
      · have hwk : ¬ w = k := fun hc => hkw hc.symm
        simp [appendEntry, lookupEntry, hkw, hwk]
    · by_cases hkw : k = w
      · subst hkw
        have hkv2 : ¬ k = v := hkv
        simp [appendEntry, lookupEntry, hkv2]
      · simp [appendEntry, lookupEntry, hkv, hkw, ih]

theorem getD_lookup_counterFoldFrom {ι V : Type} [DecidableEq V]
    (events : List (ι × V)) :
    ∀ (acc : List (V × List ι)) (w : V),
      (lookupEntry (counterFoldFrom acc events) w).getD [] =
        (lookupEntry acc w).getD [] ++
          ((events.filter (fun e => decide (e.2 = w))).map (fun e => e.1)) := by
  induction events with
  | nil =>
    intro acc w
    simp [counterFoldFrom]
  | cons e rest ih =>
    intro acc w
    rw [counterFoldFrom, ih, lookupEntry_appendEntry]
    by_cases h : w = e.2
    · subst h
      simp [List.filter_cons]
    · have h2 : ¬ e.2 = w := fun hc => h hc.symm
      simp [h, h2, List.filter_cons]

theorem isSome_lookup_counterFoldFrom {ι V : Type} [DecidableEq V]
    (events : List (ι × V)) :
    ∀ (acc : List (V × List ι)) (w : V),
      (lookupEntry (counterFoldFrom acc events) w).isSome = true ↔
        (lookupEntry acc w).isSome = true ∨ w ∈ events.map (fun e => e.2) := by
  induction events with
  | nil =>
    intro acc w
    simp [counterFoldFrom]
  | cons e rest ih =>
    intro acc w
    rw [counterFoldFrom, ih, lookupEntry_appendEntry]
    by_cases h : w = e.2
    · subst h
      simp
    · simp only [List.map_cons, List.mem_cons]
      rw [if_neg h]
      constructor
      · rintro (hs | hm)
        · exact Or.inl hs
        · exact Or.inr (Or.inr hm)
      · rintro (hs | hm | hm)
        · exact Or.inl hs
        · exact absurd hm h
        · exact Or.inr hm

theorem length_filter_eq_count {ι V : Type} [DecidableEq V]
    (events : List (ι × V)) (w : V) :
    ((events.filter (fun e => decide (e.2 = w))).map (fun e => e.1)).length =
      (events.map (fun e => e.2)).count w := by
  induction events with
  | nil => rfl
  | cons e rest ih =>
    by_cases h : e.2 = w
    · simp [List.filter_cons, h, List.count_cons, ih]
    · have h2 : ¬ w = e.2 := fun hc => h hc.symm
      simp [List.filter_cons, h, List.count_cons, ih, h2]

theorem isDup_iff_count {ι V : Type} [DecidableEq V]
    (events : List (ι × V)) (w : V) :
    isDupIn (counterOf events) w ↔ 1 < (events.map (fun e => e.2)).count w := by
  have key := getD_lookup_counterFoldFrom events [] w
  simp only [lookupEntry, Option.getD_none, List.nil_append] at key
  have hcnt := length_filter_eq_count events w
  rw [counterOf]
  constructor
  · rintro ⟨l, hl, hlen⟩
    rw [hl] at key
    simp only [Option.getD_some] at key
    rw [key] at hlen
    rw [hcnt] at hlen
    exact hlen
  · intro h
    rcases hl : lookupEntry (counterFoldFrom [] events) w with _ | l
    · rw [hl] at key
      simp only [Option.getD_none] at key
      rw [← hcnt, ← key] at h
      simp at h
    · refine ⟨l, hl, ?_⟩
      rw [hl] at key
      simp only [Option.getD_some] at key
      rw [key, hcnt]
      exact h

theorem lookup_isSome_iff_mem_keys {ι V : Type} [DecidableEq V]
    (acc : List (V × List ι)) (w : V) :
    (lookupEntry acc w).isSome = true ↔ w ∈ acc.map (fun e => e.1) := by
  induction acc with
  | nil => simp [lookupEntry]
  | cons hd tl ih =>
    obtain ⟨k, l⟩ := hd
    by_cases h : k = w
    · subst h
      simp [lookupEntry]
    · have h2 : ¬ w = k := fun hc => h hc.symm
      simp [lookupEntry, h, h2, ih]

theorem keys_appendEntry {ι V : Type} [DecidableEq V]
    (acc : List (V × List ι)) (v : V) (i : ι) :
    (appendEntry acc v i).map (fun e => e.1) =
      if (lookupEntry acc v).isSome = true then acc.map (fun e => e.1)
      else acc.map (fun e => e.1) ++ [v] := by
  induction acc with
  | nil => simp [appendEntry, lookupEntry]
  | cons hd tl ih =>
    obtain ⟨k, l⟩ := hd
    by_cases h : k = v
    · subst h
      simp [appendEntry, lookupEntry]
    · simp [appendEntry, lookupEntry, h, ih]
      split <;> simp

theorem keys_nodup_counterFoldFrom {ι V : Type} [DecidableEq V]
    (events : List (ι × V)) :
    ∀ (acc : List (V × List ι)),
      ((acc.map (fun e => e.1)).Nodup) →
      ((counterFoldFrom acc events).map (fun e => e.1)).Nodup := by
  induction events with
  | nil =>
    intro acc h
    simpa [counterFoldFrom] using h
  | cons e rest ih =>
    intro acc h
    rw [counterFoldFrom]
    refine ih _ ?_
    rw [keys_appendEntry]
    split
    · exact h
    · next hns =>
      have hnm : e.2 ∉ acc.map (fun x => x.1) := by
        rw [← lookup_isSome_iff_mem_keys]
        simpa using hns
      simp [List.nodup_append, h, hnm]

theorem lookupEntry_cons_ne {ι V : Type} [DecidableEq V]
    (k : V) (l : List ι) (rest : List (V × List ι)) (v : V) (h : ¬ k = v) :
    lookupEntry ((k, l) :: rest) v = lookupEntry rest v := by
  simp [lookupEntry, h]

theorem lookupEntry_of_mem {ι V : Type} [DecidableEq V] :
    ∀ (counter : List (V × List ι)),
      (counter.map (fun e => e.1)).Nodup →
      ∀ e ∈ counter, lookupEntry counter e.1 = some e.2 := by
  intro counter
  induction counter with
  | nil =>
    intro _ e he
    exact absurd he (List.not_mem_nil e)
  | cons hd rest ih =>
    intro hnd e he
    obtain ⟨k, l⟩ := hd
    simp only [List.map_cons, List.nodup_cons] at hnd
    obtain ⟨hk, hrest⟩ := hnd
    rcases List.mem_cons.mp he with rfl | hmem
    · simp [lookupEntry]
    · have hne : ¬ k = e.1 := by
        intro hc
        exact hk (hc ▸ List.mem_map_of_mem (fun x => x.1) hmem)
      rw [lookupEntry_cons_ne k l rest e.1 hne]
      exact ih hrest e hmem


theorem totalDuplicates_counterOf {ι V : Type} [DecidableEq V]
    (events : List (ι × V)) :
    totalDuplicates (counterOf events) =
      ((((events.map (fun e => e.2)).dedup).filter
          (fun v => decide (1 < (events.map (fun e => e.2)).count v))).map
        (fun v => (events.map (fun e => e.2)).count v)).sum := by
  have hnd : ((counterOf events).map (fun e => e.1)).Nodup :=
    keys_nodup_counterFoldFrom events [] (by simp)
  have hlen : ∀ e ∈ counterOf events,
      e.2.length = (events.map (fun x => x.2)).count e.1 := by
    intro e he
    have hl := lookupEntry_of_mem (counterOf events) hnd e he
    have key := getD_lookup_counterFoldFrom events [] e.1
    simp only [lookupEntry, Option.getD_none, List.nil_append] at key
    rw [counterOf] at hl
    rw [hl] at key
    simp only [Option.getD_some] at key
    rw [key, length_filter_eq_count]
  -- the sum over duplicate entries equals the sum over duplicate keys
  have hstep :
      totalDuplicates (counterOf events) =
        ((((counterOf events).map (fun e => e.1)).filter
            (fun v => decide (1 < (events.map (fun e => e.2)).count v))).map
          (fun v => (events.map (fun e => e.2)).count v)).sum := by
    rw [List.filter_map, List.map_map]
    unfold totalDuplicates
    have hfil : (counterOf events).filter
          ((fun v => decide (1 < (events.map (fun e => e.2)).count v)) ∘ (fun e => e.1)) =
        (counterOf events).filter (fun e => decide (1 < e.2.length)) := by
      apply List.filter_congr
      intro e he
      simp only [Function.comp_apply]
      rw [hlen e he]
    rw [hfil]
    congr 1
    apply List.map_congr_left
    intro e he
    have hmem : e ∈ counterOf events := List.mem_of_mem_filter he
    simp only [Function.comp_apply]
    rw [hlen e hmem]
  rw [hstep]
  -- the key list is a permutation of the deduplicated value list
  have hperm : ((counterOf events).map (fun e => e.1)).Perm
      ((events.map (fun e => e.2)).dedup) := by
    rw [List.perm_ext_iff_of_nodup hnd (List.nodup_dedup _)]
    intro v
    rw [List.mem_dedup]
    rw [← lookup_isSome_iff_mem_keys]
    rw [counterOf]
    rw [isSome_lookup_counterFoldFrom events [] v]
    simp [lookupEntry]
  exact List.Perm.sum_eq ((hperm.filter _).map _)

theorem map_snd_pairEvents {κ I V : Type} (items : List (κ × I))
    (collect : I → List V) :
    ((items.flatMap (fun p => (collect p.2).map (fun v => (p.1, v)))).map
        (fun e => e.2)) =
      (items.map (fun p => collect p.2)).flatten := by
  induction items with
  | nil => rfl
  | cons p rest ih =>
    simp only [List.flatMap_cons, List.map_append, List.map_map, List.map_cons,
      List.flatten_cons, ih]
    congr 1
    simp

theorem map_snd_eventsBy (arts : List JsonAnalysisTwo.ArticleRec)
    (collect : JsonAnalysisTwo.ArticleRec → List String) :
    ((JsonAnalysisTwo.eventsBy arts collect).map (fun e => e.2)) =
      (arts.map collect).flatten := by
  induction arts with
  | nil => rfl
  | cons a rest ih =>
    simp only [JsonAnalysisTwo.eventsBy, List.flatMap_cons, List.map_append,
      List.map_map, List.map_cons, List.flatten_cons] at ih ⊢
    rw [ih]
    congr 1
    simp

/-- C5: in both duplicate-detection scripts a value (DOI, paperlink URL,
ScienceAlert link) is reported as a duplicate exactly when more than one
occurrence of it was collected over the whole input (occurrences inside
one item count separately), and each key's reported total is the sum of
the occurrence counts over that key's duplicate values. The last two
conjuncts state this for the counter of analyze_json_duplicates in
json_analysis.py, whose per-item value extraction is the `collect`
parameter. -/
theorem duplicate_reports_spec :
    (∀ (arts : List JsonAnalysisTwo.ArticleRec) (v : String),
      isDupIn (JsonAnalysisTwo.doi_counter arts) v ↔
        1 < ((arts.map JsonAnalysisTwo.collectedDois).flatten).count v) ∧
    (∀ (arts : List JsonAnalysisTwo.ArticleRec) (v : String),
      isDupIn (JsonAnalysisTwo.url_counter arts) v ↔
        1 < ((arts.map JsonAnalysisTwo.collectedPaperlinks).flatten).count v) ∧
    (∀ (arts : List JsonAnalysisTwo.ArticleRec) (v : String),
      isDupIn (JsonAnalysisTwo.sciencealert_counter arts) v ↔
        1 < ((arts.map JsonAnalysisTwo.collectedSciencealert).flatten).count v) ∧
    (∀ (arts : List JsonAnalysisTwo.ArticleRec),
      totalDuplicates (JsonAnalysisTwo.doi_counter arts) =
        ((((arts.map JsonAnalysisTwo.collectedDois).flatten.dedup).filter
            (fun v => decide (1 <
              (arts.map JsonAnalysisTwo.collectedDois).flatten.count v))).map
          (fun v => (arts.map JsonAnalysisTwo.collectedDois).flatten.count v)).sum ∧
      totalDuplicates (JsonAnalysisTwo.url_counter arts) =
        ((((arts.map JsonAnalysisTwo.collectedPaperlinks).flatten.dedup).filter
            (fun v => decide (1 <
              (arts.map JsonAnalysisTwo.collectedPaperlinks).flatten.count v))).map
          (fun v =>
            (arts.map JsonAnalysisTwo.collectedPaperlinks).flatten.count v)).sum ∧
      totalDuplicates (JsonAnalysisTwo.sciencealert_counter arts) =
        ((((arts.map JsonAnalysisTwo.collectedSciencealert).flatten.dedup).filter
            (fun v => decide (1 <
              (arts.map JsonAnalysisTwo.collectedSciencealert).flatten.count v))).map
          (fun v =>
            (arts.map JsonAnalysisTwo.collectedSciencealert).flatten.count v)).sum) ∧
    (∀ (κ I V : Type) [inst : DecidableEq V] (items : List (κ × I))
      (collect : I → List V) (v : V),
      isDupIn (JsonAnalysis.counterFor items collect) v ↔
        1 < ((items.map (fun p => collect p.2)).flatten).count v) ∧
    (∀ (κ I V : Type) [inst : DecidableEq V] (items : List (κ × I))
      (collect : I → List V),
      totalDuplicates (JsonAnalysis.counterFor items collect) =
        ((((items.map (fun p => collect p.2)).flatten.dedup).filter
            (fun v => decide (1 <
              (items.map (fun p => collect p.2)).flatten.count v))).map
          (fun v => (items.map (fun p => collect p.2)).flatten.count v)).sum) := by
  refine ⟨?_, ?_, ?_, ?_, ?_, ?_⟩
  · intro arts v
    have h := isDup_iff_count (JsonAnalysisTwo.eventsBy arts JsonAnalysisTwo.collectedDois) v
    rw [map_snd_eventsBy] at h
    exact h
  · intro arts v
    have h := isDup_iff_count (JsonAnalysisTwo.eventsBy arts JsonAnalysisTwo.collectedPaperlinks) v
    rw [map_snd_eventsBy] at h
    exact h
  · intro arts v
    have h := isDup_iff_count (JsonAnalysisTwo.eventsBy arts JsonAnalysisTwo.collectedSciencealert) v
    rw [map_snd_eventsBy] at h
    exact h
  · intro arts
    refine ⟨?_, ?_, ?_⟩
    · have h := totalDuplicates_counterOf
        (JsonAnalysisTwo.eventsBy arts JsonAnalysisTwo.collectedDois)
      rw [map_snd_eventsBy] at h
      exact h
    · have h := totalDuplicates_counterOf
        (JsonAnalysisTwo.eventsBy arts JsonAnalysisTwo.collectedPaperlinks)
      rw [map_snd_eventsBy] at h
      exact h
    · have h := totalDuplicates_counterOf
        (JsonAnalysisTwo.eventsBy arts JsonAnalysisTwo.collectedSciencealert)
      rw [map_snd_eventsBy] at h
      exact h
  · intro κ I V inst items collect v
    have h := isDup_iff_count
      (items.flatMap (fun p => (collect p.2).map (fun v => (p.1, v)))) v
    rw [map_snd_pairEvents] at h
    exact h
  · intro κ I V inst items collect
    have h := totalDuplicates_counterOf
      (items.flatMap (fun p => (collect p.2).map (fun v => (p.1, v))))
    rw [map_snd_pairEvents] at h
    exact h

theorem forall2_get?_exists {α β : Type} {R : α → β → Prop} :
    ∀ {l₁ : List α} {l₂ : List β}, List.Forall₂ R l₁ l₂ →
      ∀ {i : Nat} {b : β}, l₂.get? i = some b →
        ∃ a, l₁.get? i = some a ∧ R a b := by
  intro l₁ l₂ h
  induction h with
  | nil =>
    intro i b hb
    simp at hb
  | cons hr _ ih =>
    intro i b hb
    match i with
    | 0 =>
      simp at hb
      subst hb
      exact ⟨_, rfl, hr⟩
    | j + 1 =>
      simp only [List.get?_cons_succ] at hb ⊢
      exact ih hb

theorem forall2_get?_exists_left {α β : Type} {R : α → β → Prop} :
    ∀ {l₁ : List α} {l₂ : List β}, List.Forall₂ R l₁ l₂ →
      ∀ {i : Nat} {a : α}, l₁.get? i = some a →
        ∃ b, l₂.get? i = some b ∧ R a b := by
  intro l₁ l₂ h
  induction h with
  | nil =>
    intro i a ha
    simp at ha
  | cons hr _ ih =>
    intro i a ha
    match i with
    | 0 =>
      simp at ha
      subst ha
      exact ⟨_, rfl, hr⟩
    | j + 1 =>
      simp only [List.get?_cons_succ] at ha ⊢
      exact ih ha

theorem forall2_set_right {α β : Type} {R : α → β → Prop} :
    ∀ {l₁ : List α} {l₂ : List β}, List.Forall₂ R l₁ l₂ →
      ∀ {i : Nat} {b : β},
        (∀ a, l₁.get? i = some a → R a b) →
        List.Forall₂ R l₁ (l₂.set i b) := by
  intro l₁ l₂ h
  induction h with
  | nil =>
    intro i b _
    simp
  | @cons x y xs ys hr ht ih =>
    intro i b hb
    match i with
    | 0 =>
      simp only [List.set_cons_zero]
      exact List.Forall₂.cons (hb x rfl) ht
    | j + 1 =>
      simp only [List.set_cons_succ]
      exact List.Forall₂.cons hr (ih (fun a ha => hb a ha))

theorem frameAgree_refl (a : DataModels.Article) : frameAgree a a := by
  refine ⟨rfl, rfl, rfl, rfl, rfl, rfl, rfl, ?_⟩
  exact List.forall₂_same.mpr (fun p _ => rfl)

theorem frame_applyUpdate {arts0 arts : List DataModels.Article}
    (h : List.Forall₂ frameAgree arts0 arts)
    (article_id : Nat) (key : UrlCleaner.UpdKey) (final : String) :
    List.Forall₂ frameAgree arts0
      (UrlCleaner.applyUpdate arts article_id key final) := by
  rcases hg : arts.get? article_id with _ | a
  · have hred : UrlCleaner.applyUpdate arts article_id key final = arts := by
      rw [UrlCleaner.applyUpdate, hg]
    rw [hred]
    exact h
  · obtain ⟨o, ho, hoa⟩ := forall2_get?_exists h hg
    cases key with
    | urlField =>
      have hred : UrlCleaner.applyUpdate arts article_id UrlCleaner.UpdKey.urlField final =
          arts.set article_id { a with url := some final } := by
        rw [UrlCleaner.applyUpdate, hg]
      rw [hred]
      apply forall2_set_right h
      intro a2 ha2
      rw [ho] at ha2
      cases ha2
      exact hoa
    | plField i =>
      rcases hp : a.paperlinks.get? i with _ | p
      · have hred : UrlCleaner.applyUpdate arts article_id
            (UrlCleaner.UpdKey.plField i) final = arts := by
          rw [UrlCleaner.applyUpdate, hg]
          dsimp only
          rw [hp]
        rw [hred]
        exact h
      · have hred : UrlCleaner.applyUpdate arts article_id
            (UrlCleaner.UpdKey.plField i) final =
            arts.set article_id
              { a with paperlinks :=
                  a.paperlinks.set i { p with paperlink := some final } } := by
          rw [UrlCleaner.applyUpdate, hg]
          dsimp only
          rw [hp]
        rw [hred]
        apply forall2_set_right h
        intro a2 ha2
        rw [ho] at ha2
        cases ha2
        obtain ⟨h1, h2, h3, h4, h5, h6, h7, h8⟩ := hoa
        refine ⟨h1, h2, h3, h4, h5, h6, h7, ?_⟩
        apply forall2_set_right h8
        intro q hq
        obtain ⟨p2, hp2, hq2⟩ := forall2_get?_exists_left h8 hq
        rw [hp] at hp2
        cases hp2
        exact hq2

theorem frame_check_foldl (resp : String → Except PyErr HeadResponse)
    (arts0 : List DataModels.Article) :
    ∀ (tasks : List (Nat × UrlCleaner.UpdKey × String))
      (rc nrc : List (String × List (Nat × String)))
      (arts : List DataModels.Article),
      List.Forall₂ frameAgree arts0 arts →
      List.Forall₂ frameAgree arts0
        ((tasks.foldl
          (fun st t =>
            let (rc, nrc, arts) := st
            let r := UrlCleaner.check_redirect t.2.2 (resp t.2.2)
            let arts2 := UrlCleaner.applyUpdate arts t.1 t.2.1 r.2.2
            if r.1 then (appendEntry rc r.2.2 (t.1, r.2.1), nrc, arts2)
            else (rc, appendEntry nrc r.2.1 (t.1, r.2.1), arts2))
          (rc, nrc, arts)).2.2) := by
  intro tasks
  induction tasks with
  | nil =>
    intro rc nrc arts h
    simpa using h
  | cons t rest ih =>
    intro rc nrc arts h
    rw [List.foldl_cons]
    have h2 := frame_applyUpdate h t.1 t.2.1
      (UrlCleaner.check_redirect t.2.2 (resp t.2.2)).2.2
    by_cases hb : (UrlCleaner.check_redirect t.2.2 (resp t.2.2)).1 = true
    · simpa [hb] using ih _ _ _ h2
    · simp only [Bool.not_eq_true] at hb
      simpa [hb] using ih _ _ _ h2

/-- C9: check_all_urls modifies only each article's url field and the
paperlink field of its paperlinks entries: the number and order of
articles and of paperlinks entries are preserved, and every other article
field (title, author, doi_urls, non_doi_urls, index, count, dois) and
every paperlink's doi are unchanged, for every HEAD-response oracle. -/
theorem check_all_urls_frame_spec (resp : String → Except PyErr HeadResponse)
    (articles : List DataModels.Article) :
    List.Forall₂ frameAgree articles
      (UrlCleaner.check_all_urls resp articles).2.2 := by
  have h := frame_check_foldl resp articles (UrlCleaner.urlTasks articles)
    [] [] articles (List.forall₂_same.mpr (fun a _ => frameAgree_refl a))
  exact h

theorem mapExceptList_get_doi_ok (l : List String) (p : String) :
    mapExceptList (fun u => RedirectingUrls.get_doi_from_url u (some p)) l =
      Except.ok (l.map (fun u => if p.isPrefixOf u then u.drop p.length else u)) := by
  induction l with
  | nil => rfl
  | cons x xs ih =>
    rw [mapExceptList, ih]
    rfl

theorem clean_doi_urls_some_ok (l : List String) (p : String) :
    RedirectingUrls.clean_doi_urls l (some p) =
      .ok ((l.map (fun u => if p.isPrefixOf u then u.drop p.length else u)).dedup) := by
  rw [RedirectingUrls.clean_doi_urls, mapExceptList_get_doi_ok]
  rfl

theorem clean_article_dois_err (a : DataModels.Article) (h : a.doi_urls ≠ []) :
    RedirectingUrls.clean_article_dois a = .error (.typeError startsWithMsg) := by
  rcases hd : a.doi_urls with _ | ⟨u, t⟩
  · exact absurd hd h
  · simp only [RedirectingUrls.clean_article_dois, hd, clean_doi_urls_some_ok]
    rfl

theorem clean_articles_dois_err :
    ∀ (l : List DataModels.Article), (∃ a ∈ l, a.doi_urls ≠ []) →
      ∃ e, RedirectingUrls.clean_articles_dois l = .error e := by
  intro l
  induction l with
  | nil =>
    rintro ⟨a, ha, _⟩
    exact absurd ha (List.not_mem_nil a)
  | cons a rest ih =>
    rintro ⟨b, hb, hbne⟩
    rcases List.mem_cons.mp hb with rfl | hbr
    · refine ⟨.typeError startsWithMsg, ?_⟩
      rw [RedirectingUrls.clean_articles_dois, clean_article_dois_err b hbne]
      rfl
    · by_cases ha : a.doi_urls = []
      · obtain ⟨e, he⟩ := ih ⟨b, hbr, hbne⟩
        refine ⟨e, ?_⟩
        rw [RedirectingUrls.clean_articles_dois]
        have hok : RedirectingUrls.clean_article_dois a =
            .ok { a with dois := [], doi_urls := [] } := by
          simp only [RedirectingUrls.clean_article_dois, ha, clean_doi_urls_some_ok]
          rfl
        rw [hok, he]
        rfl
      · refine ⟨.typeError startsWithMsg, ?_⟩
        rw [RedirectingUrls.clean_articles_dois, clean_article_dois_err a ha]
        rfl

/-- C8: with prefix=None the DOI cleaners raise TypeError on every
non-empty URL list (the inner get_doi_from_url / extract_doi_from_url
evaluates `url.startswith(None)`), so the DOI-cleaning step of clean_file
raises whenever some article has a non-empty doi_urls list (the
redirect phase leaves doi_urls untouched), and clean_file catches the
exception and returns without writing its output. -/
theorem clean_doi_urls_none_spec :
    (∀ (u : String) (t : List String),
      RedirectingUrls.clean_doi_urls (u :: t) none =
          .error (.typeError startsWithMsg) ∧
      UrlCleaner.clean_doi_urls (u :: t) none =
          .error (.typeError startsWithMsg)) ∧
    (∀ (resp : String → Except PyErr HeadResponse)
      (data : List DataModels.Article),
      (∃ a ∈ data, a.doi_urls ≠ []) →
        RedirectingUrls.clean_file resp data = none) := by
  constructor
  · intro u t
    exact ⟨rfl, rfl⟩
  · rintro resp data ⟨a, ha, hane⟩
    have hfr : List.Forall₂ frameAgree data
        (UrlCleaner.check_all_urls resp data).2.2 :=
      frame_check_foldl resp data (UrlCleaner.urlTasks data) [] [] data
        (List.forall₂_same.mpr (fun x _ => frameAgree_refl x))
    obtain ⟨i, hgi⟩ := List.get?_of_mem ha
    obtain ⟨b, hgb, hab⟩ := forall2_get?_exists_left hfr hgi
    have hbmem : b ∈ (UrlCleaner.check_all_urls resp data).2.2 :=
      List.get?_mem hgb
    have hbne : b.doi_urls ≠ [] := by
      rw [← hab.2.2.1]
      exact hane
    obtain ⟨e, he⟩ := clean_articles_dois_err _ ⟨b, hbmem, hbne⟩
    rw [RedirectingUrls.clean_file, he]

/-- C10 (amended): the metadata cache is not transparent; what a later
call with the same DOI returns is the raw metadata object the miss stored
in the cache (with the cache unchanged), which is the unprocessed API
response rather than the summary dictionary the first call returned. This
theorem proves the cache-hit behaviour: whenever the DOI is truthy and
present in the cache, get_paper_metadata returns exactly the stored raw
value and leaves the cache as it is, for every redirect and request
oracle. -/
theorem metadata_cache_hit_raw (cache : List (String × JValue)) (d : String)
    (url : Option String) (fr : Except PyErr String)
    (resp : Except PyErr (Int × Except PyErr JValue))
    (v : JValue) (hd : d.isEmpty = false) (hv : lookupField cache d = some v) :
    OpenAlex.get_paper_metadata cache (some d) url fr resp = .ok (v, cache) := by
  have hg : truthyOptStr (some d) = true := by
    simp [truthyOptStr, hd]
  have hcneg : ¬ ((!(truthyOptStr (some d) || truthyOptStr url)) = true) := by
    simp [hg]
  have hch : OpenAlex.cacheHit cache (some d) = some v := by
    simp [OpenAlex.cacheHit, hd, hv]
  rw [OpenAlex.get_paper_metadata.eq_def, if_neg hcneg, hch]

/-- Witness for the amended C10 theorem at a concrete cache, DOI and
oracles. -/
theorem metadata_cache_hit_raw_witness :
    OpenAlex.get_paper_metadata [("10.1/x", sampleMeta)] (some "10.1/x") none
        (.error (.exception "net down")) (.error (.exception "boom")) =
      .ok (sampleMeta, [("10.1/x", sampleMeta)]) :=
  metadata_cache_hit_raw [("10.1/x", sampleMeta)] "10.1/x" none
    (.error (.exception "net down")) (.error (.exception "boom")) sampleMeta
    rfl rfl

/-- C10 counterexample: with an empty cache, DOI "10.1/x" and a fixed 200
response whose body is sampleMeta, the first call returns the summary
dictionary and populates the cache, while the second call with the same
DOI returns the cached raw metadata — a different value. So a later call
does not return a result equal to the first call's result. -/
theorem metadata_cache_not_transparent :
    ∃ res1 c1 res2,
      OpenAlex.get_paper_metadata [] (some "10.1/x") none
          (.error (.exception "net down"))
          (.ok (200, .ok sampleMeta)) = .ok (res1, c1) ∧
      OpenAlex.get_paper_metadata c1 (some "10.1/x") none
          (.error (.exception "net down"))
          (.ok (200, .ok sampleMeta)) = .ok (res2, c1) ∧
      res1 ≠ res2 := by
  refine ⟨_, _, _, rfl, rfl, ?_⟩
  intro hc
  injection hc with h1
  simp at h1
